import Mathlib

/-!
Shallow embedding of the Money-Weighted-Return repository (src/mwr.py and
src/twr.py).

Modelling conventions:
* A pandas `Series` is a pair of parallel lists: `idx` (dates, as integer
  day counts, so `(d1 - d0).days = d1 - d0`) and `val` (float values).
* Float values are modelled as `Option ℚ`: `some q` is a finite float,
  `none` models a non-finite value (NaN, as produced by `pct_change` at
  index 0 or by arithmetic on NaN).  Arithmetic propagates `none` the way
  float arithmetic propagates NaN; division by zero also yields `none`.
* Positional indexing (`s[i]`, `s[i] = v`, `s[-1]`) on a
  Timestamp-indexed pandas Series is modelled by list position.
* Series arithmetic between equally-indexed series is positional
  (`List.zipWith`), which matches pandas label alignment under the
  spec's input contract that all series share one aligned index.
* The two scipy root-finding calls (`optimize.newton`, `optimize.brentq`)
  are external floating-point iterative routines; they are modelled as
  abstract stage functions passed as parameters.  Each stage receives the
  exact call parameters appearing in the source (`x0 = 0, rtol = 1e-4`
  for newton; `a = -0.999999999999999, b = 100, maxiter = 10^4` for
  brentq) together with the data series handed to the lambda, and returns
  either a numeric result (real or complex) or raises an exception
  (`RuntimeError`, `OverflowError`, or any other), modelled by `Except`.
-/

/-- A float value: `some q` finite, `none` non-finite (NaN). -/
abbrev Val := Option ℚ

def vneg : Val → Val
  | some a => some (-a)
  | none => none

def vadd : Val → Val → Val
  | some a, some b => some (a + b)
  | _, _ => none

def vsub : Val → Val → Val
  | some a, some b => some (a - b)
  | _, _ => none

def vmul : Val → Val → Val
  | some a, some b => some (a * b)
  | _, _ => none

def vdiv : Val → Val → Val
  | some a, some b => if b = 0 then none else some (a / b)
  | _, _ => none

/-- pandas `Series.clip(lo, hi)`: clips finite values, leaves NaN alone. -/
def vclip (lo hi : ℚ) : Val → Val
  | some a => some (max lo (min hi a))
  | none => none

/-- A pandas Series: parallel lists of dates (day numbers) and values. -/
structure Series where
  idx : List ℤ
  val : List Val
deriving Repr, DecidableEq

/-- pandas `Series.pct_change()`: NaN at position 0, `(x_i - x_(i-1)) / x_(i-1)` after. -/
def pct_change (l : List Val) : List Val :=
  (List.range l.length).map (fun i =>
    if i = 0 then none
    else vdiv (vsub (l.getD i none) (l.getD (i - 1) none)) (l.getD (i - 1) none))

/-- pandas `Series.shift(1)`: NaN at position 0, previous value after. -/
def shift1 (l : List Val) : List Val :=
  (List.range l.length).map (fun i => if i = 0 then none else l.getD (i - 1) none)

/-- mwr.py `_estimate_flows`: flow weights are the AUM percent change minus
the NAV percent change, flow amounts multiply the weights by the shifted AUM. -/
def _estimate_flows (nav aum : Series) : Series × Series :=
  let returns_nav := pct_change nav.val
  let returns_aum := pct_change aum.val
  let flows_weight := List.zipWith vsub returns_aum returns_nav
  let flows_amount := List.zipWith vmul flows_weight (shift1 aum.val)
  (⟨aum.idx, flows_amount⟩, ⟨aum.idx, flows_weight⟩)

/-- Exceptions the solver stages may raise: `RuntimeError`, `OverflowError`,
or any other exception class. -/
inductive SolveErr
  | runtime
  | overflow
  | other
deriving Repr, DecidableEq

/-- A numeric value returned by a scipy call: a real float or a complex. -/
inductive NumResult
  | real (q : ℚ)
  | cplx
deriving Repr, DecidableEq

/-- Parameters of the `optimize.newton` call in the source. -/
structure NewtonParams where
  x0 : ℚ
  rtol : ℚ
deriving Repr, DecidableEq

/-- Parameters of the `optimize.brentq` call in the source. -/
structure BrentqParams where
  a : ℚ
  b : ℚ
  maxiter : ℕ
deriving Repr, DecidableEq

/-- Abstract model of `scipy.optimize.newton` applied to the discounted-sum
lambda over the given (year-fraction, amount) data. -/
abbrev Stage1 := NewtonParams → List (ℚ × Val) → Except SolveErr NumResult

/-- Abstract model of `scipy.optimize.brentq` applied to the discounted-sum
lambda over the given (year-fraction, amount) data. -/
abbrev Stage2 := BrentqParams → List (ℚ × Val) → Except SolveErr NumResult

/-- The zero-filter in `_xirr`: `cashflows[cashflows != 0]`.  Note numpy's
`NaN != 0` is True, so NaN entries are kept. -/
def filterZeros (c : Series) : List (ℤ × Val) :=
  (c.idx.zip c.val).filter (fun p => decide (p.2 ≠ some 0))

/-- The finite (non-NaN) values of a filtered cashflow list; pandas
`min`/`max` skip NaN, so they range over exactly these. -/
def finiteVals (l : List (ℤ × Val)) : List ℚ :=
  l.filterMap (fun p => p.2)

/-- Minimum of a list (pandas `.min()` over the finite values). -/
def listMin {α : Type} [LinearOrder α] : List α → Option α
  | [] => none
  | q :: qs =>
    match listMin qs with
    | none => some q
    | some m => some (min q m)

/-- Maximum of a list (pandas `.max()` over the finite values). -/
def listMax {α : Type} [LinearOrder α] : List α → Option α
  | [] => none
  | q :: qs =>
    match listMax qs with
    | none => some q
    | some m => some (max q m)

/-- The source's check `cashflows.min() * cashflows.max() >= 0`.  When either
side is NaN (no finite entries), the float comparison `NaN >= 0` is False,
hence the `false` branch. -/
def sameSignCheck (l : List (ℤ × Val)) : Bool :=
  match listMin (finiteVals l), listMax (finiteVals l) with
  | some m, some M => decide (0 ≤ m * M)
  | _, _ => false

/-- The source's re-indexing
`cashflows.index = (cashflows.index - cashflows.index.min()).days / 365.0`. -/
def reindexYears (l : List (ℤ × Val)) : List (ℚ × Val) :=
  let dmin := (listMin (l.map Prod.fst)).getD 0
  l.map (fun p => (((p.1 - dmin : ℤ) : ℚ) / 365, p.2))

/-- The data series handed to both scipy lambdas inside `_xirr`. -/
def xirrTimes (c : Series) : List (ℚ × Val) :=
  reindexYears (filterZeros c)

/-- The final `isinstance(result, complex)` conversion: a complex numeric
result becomes NaN. -/
def interpResult : NumResult → Val
  | NumResult.real q => some q
  | NumResult.cplx => none

/-- mwr.py `_xirr`, with the two scipy stages abstracted: filter zeros, do
the sign-change check, re-index to year fractions, try newton with
`x0 = 0, rtol = 1e-4`, on RuntimeError/OverflowError fall back to brentq on
`(-0.999999999999999, 100)` with `maxiter = 10^4`; other exceptions (and
brentq exceptions) propagate; a complex result becomes NaN. -/
def _xirr (s1 : Stage1) (s2 : Stage2) (cashflows : Series) : Except SolveErr Val :=
  if sameSignCheck (filterZeros cashflows) then Except.ok none
  else
    match s1 ⟨0, 1 / 10000⟩ (xirrTimes cashflows) with
    | Except.ok v => Except.ok (interpResult v)
    | Except.error SolveErr.runtime =>
      match s2 ⟨-(999999999999999 / 1000000000000000), 100, 10 ^ 4⟩ (xirrTimes cashflows) with
      | Except.ok v => Except.ok (interpResult v)
      | Except.error e => Except.error e
    | Except.error SolveErr.overflow =>
      match s2 ⟨-(999999999999999 / 1000000000000000), 100, 10 ^ 4⟩ (xirrTimes cashflows) with
      | Except.ok v => Except.ok (interpResult v)
      | Except.error e => Except.error e
    | Except.error SolveErr.other => Except.error SolveErr.other

/-- The cashflow construction in `money_weighted_return_annualized`:
`cashflows = flows.mul(-1)`, `cashflows[0] = -aum[0]`,
`cashflows[-1] += aum[-1]`. -/
def buildCashflows (aum flows : Series) : Series :=
  let cfv0 := flows.val.map (vmul (some (-1)))
  let cfv1 := cfv0.set 0 (vneg (aum.val.getD 0 none))
  let last := cfv1.length - 1
  let cfv2 := cfv1.set last (vadd (cfv1.getD last none) (aum.val.getD (aum.val.length - 1) none))
  ⟨flows.idx, cfv2⟩

/-- mwr.py `money_weighted_return_annualized`: estimate flows when absent,
build the cashflow vector, delegate to `_xirr`. -/
def money_weighted_return_annualized (s1 : Stage1) (s2 : Stage2)
    (nav aum : Series) (flows : Option Series) : Except SolveErr Val :=
  let fl :=
    match flows with
    | none => (_estimate_flows nav aum).1
    | some f => f
  _xirr s1 s2 (buildCashflows aum fl)

/-- One iteration of the counterfactual simulation loop at index `i`:
`flows_amount[i] = flows_weight[i] * aum[i-1]` (times `-1` in the inverted
variant), then `aum[i] = aum[i-1] * nav_returns[i] + flows_amount[i]`. -/
def simStep (inv : Bool) (fw navR : List Val) (st : List Val × List Val) (i : ℕ) :
    List Val × List Val :=
  let f :=
    if inv then vmul (vmul (fw.getD i none) (st.2.getD (i - 1) none)) (some (-1))
    else vmul (fw.getD i none) (st.2.getD (i - 1) none)
  let a := vadd (vmul (st.2.getD (i - 1) none) (navR.getD i none)) f
  (st.1.set i f, st.2.set i a)

/-- State of the simulation loop after iterations `1, …, k` (the Python loop
is `for i in range(1, aum.shape[0])`, executed in increasing order). -/
def simRun (inv : Bool) (fw navR fa0 av0 : List Val) : ℕ → List Val × List Val
  | 0 => (fa0, av0)
  | k + 1 => simStep inv fw navR (simRun inv fw navR fa0 av0 k) (k + 1)

/-- The source's `nav.pct_change().add(1.0)`. -/
def navReturns (nav : Series) : List Val :=
  (pct_change nav.val).map (fun v => vadd v (some 1))

/-- The source's `max_flows_weight = abs(max_flows_weight)` followed by
`flows_weight.clip(-max_flows_weight, max_flows_weight)` on the estimated
weights. -/
def clippedWeights (nav aum : Series) (max_flows_weight : ℚ) : List Val :=
  (_estimate_flows nav aum).2.val.map (vclip (-|max_flows_weight|) |max_flows_weight|)

/-- The final (flows_amount, aum) state of the counterfactual simulation
loop, starting from the estimated flow amounts and a copy of `aum`. -/
def simState (inv : Bool) (nav aum : Series) (max_flows_weight : ℚ) : List Val × List Val :=
  simRun inv (clippedWeights nav aum max_flows_weight) (navReturns nav)
    (_estimate_flows nav aum).1.val aum.val (aum.val.length - 1)

/-- mwr.py `theoretical_mwr_annualized`: clip the estimated weights to
`[-|m|, |m|]`, rebuild the AUM path with the clipped flows, then compute
the MWR with explicit synthetic flows. -/
def theoretical_mwr_annualized (s1 : Stage1) (s2 : Stage2)
    (nav aum : Series) (max_flows_weight : ℚ) : Except SolveErr Val :=
  money_weighted_return_annualized s1 s2 nav
    ⟨aum.idx, (simState false nav aum max_flows_weight).2⟩
    (some ⟨aum.idx, (simState false nav aum max_flows_weight).1⟩)

/-- mwr.py `theoretical_mwr_annualized_with_inverted_flows`: same clipping
and recurrence, with the per-step flow multiplied by `-1`. -/
def theoretical_mwr_annualized_with_inverted_flows (s1 : Stage1) (s2 : Stage2)
    (nav aum : Series) (max_flows_weight : ℚ) : Except SolveErr Val :=
  money_weighted_return_annualized s1 s2 nav
    ⟨aum.idx, (simState true nav aum max_flows_weight).2⟩
    (some ⟨aum.idx, (simState true nav aum max_flows_weight).1⟩)

/-- A real-valued series, for the closed-form TWR of twr.py. -/
structure SeriesR where
  idx : List ℤ
  val : List ℝ

/-- twr.py `time_weighted_return_annualized`:
`((nav[-1] / nav[0]) ** (365.0 / days)) - 1` with
`days = (nav.index[-1] - nav.index[0]).days`. -/
noncomputable def time_weighted_return_annualized (nav : SeriesR) : ℝ :=
  let days : ℤ := nav.idx.getLastD 0 - nav.idx.headI
  let annual_factor : ℝ := 365 / (days : ℝ)
  ((nav.val.getLastD 0 / nav.val.headI) ^ annual_factor) - 1

/-- The discounted sum `(cashflows / ((1 + r) ** cashflows.index)).sum()`
evaluated in exact real arithmetic over the (year-fraction, amount) data;
meaningful when every amount is finite (`some`). -/
noncomputable def xnpv (d : List (ℚ × Val)) (r : ℝ) : ℝ :=
  (d.map (fun p => ((p.2.getD 0 : ℚ) : ℝ) / (1 + r) ^ ((p.1 : ℚ) : ℝ))).sum

/-- Map a finite `Val` series into the reals (NaN to 0; used only under
finiteness hypotheses). -/
def toR (l : List Val) : List ℝ :=
  l.map (fun v => ((v.getD 0 : ℚ) : ℝ))

/-! Concrete fixtures used by witnesses: small series and trivial solver
stages (a stage that returns a fixed numeric result, and one that raises). -/

def stOk {β : Type} (v : NumResult) : β → List (ℚ × Val) → Except SolveErr NumResult :=
  fun _ _ => Except.ok v

def stErr {β : Type} (e : SolveErr) : β → List (ℚ × Val) → Except SolveErr NumResult :=
  fun _ _ => Except.error e

def navW : Series := ⟨[0, 182, 365], [some 100, some 105, some 110]⟩

def aumW : Series := ⟨[0, 182, 365], [some 1000, some 1200, some 1250]⟩

def flowsW : Series := ⟨[0, 182, 365], [some 0, some 150, some 50]⟩

def cfW : Series := ⟨[0, 365], [some (-100), some 110]⟩

def navT : Series := ⟨[0, 365], [some 100, some 121]⟩

def aumT : Series := ⟨[0, 365], [some 1000, some 1210]⟩

/-- Decidable check that a value is a finite strictly positive float. -/
def vposB : Val → Bool
  | some q => decide (0 < q)
  | none => false

/-- Decidable check that a value is a finite strictly negative float. -/
def vnegB : Val → Bool
  | some q => decide (q < 0)
  | none => false

/-! Helper lemmas about list access. -/

theorem getD_set_self {α : Type} (l : List α) (i : ℕ) (a d : α) (h : i < l.length) :
    (l.set i a).getD i d = a := by
  simp [List.getD_eq_getD_get?, List.get?_eq_getElem?, List.getElem?_set_self h]

theorem getD_set_ne {α : Type} (l : List α) (i j : ℕ) (a d : α) (h : i ≠ j) :
    (l.set i a).getD j d = l.getD j d := by
  simp [List.getD_eq_getD_get?, List.get?_eq_getElem?, List.getElem?_set_ne h]

theorem getD_map_in {α β : Type} (f : α → β) (l : List α) (i : ℕ) (d : β) (e : α)
    (h : i < l.length) : (l.map f).getD i d = f (l.getD i e) := by
  rw [List.getD_eq_getElem _ _ (by simpa using h), List.getD_eq_getElem _ _ h]
  simp

theorem getD_zipWith_in {α β γ : Type} (f : α → β → γ) (a : List α) (b : List β) (i : ℕ)
    (d : γ) (da : α) (db : β) (ha : i < a.length) (hb : i < b.length) :
    (List.zipWith f a b).getD i d = f (a.getD i da) (b.getD i db) := by
  rw [List.getD_eq_getElem _ _ (by simp [ha, hb]), List.getD_eq_getElem _ _ ha,
    List.getD_eq_getElem _ _ hb, List.getElem_zipWith]

theorem length_pct_change (l : List Val) : (pct_change l).length = l.length := by
  simp [pct_change]

theorem pct_change_getD (l : List Val) (i : ℕ) (h : i < l.length) :
    (pct_change l).getD i none =
      if i = 0 then none
      else vdiv (vsub (l.getD i none) (l.getD (i - 1) none)) (l.getD (i - 1) none) := by
  have h1 : i < (List.range l.length).length := by simpa using h
  unfold pct_change
  rw [getD_map_in _ _ _ _ 0 h1, List.getD_eq_getElem _ _ h1, List.getElem_range]

theorem length_shift1 (l : List Val) : (shift1 l).length = l.length := by
  simp [shift1]

theorem shift1_getD (l : List Val) (i : ℕ) (h : i < l.length) :
    (shift1 l).getD i none = if i = 0 then none else l.getD (i - 1) none := by
  have h1 : i < (List.range l.length).length := by simpa using h
  unfold shift1
  rw [getD_map_in _ _ _ _ 0 h1, List.getD_eq_getElem _ _ h1, List.getElem_range]

/-! Helper lemmas about `Val` arithmetic. -/

theorem vmul_none (v : Val) : vmul v none = none := by cases v <;> rfl

theorem vmul_neg_one (v : Val) : vmul (some (-1)) v = vneg v := by
  cases v <;> simp [vmul, vneg]

/-- C4: for every pair of equal-length, same-index NAV and AUM series, the
flow estimator returns two series of the same length/index with, at every
index `t ≥ 1`, `flows_weight[t] = aum_pct_change[t] - nav_pct_change[t]` and
`flows_amount[t] = flows_weight[t] * aum[t-1]`, and with the entry at index 0
undefined (NaN, never a finite flow). -/
theorem estimate_flows_spec (nav aum : Series) (n : ℕ)
    (hnav : nav.val.length = n) (haum : aum.val.length = n) (hidx : nav.idx = aum.idx) :
    (_estimate_flows nav aum).1.idx = aum.idx ∧
    (_estimate_flows nav aum).2.idx = aum.idx ∧
    (_estimate_flows nav aum).1.val.length = n ∧
    (_estimate_flows nav aum).2.val.length = n ∧
    (_estimate_flows nav aum).2.val.getD 0 none = none ∧
    (_estimate_flows nav aum).1.val.getD 0 none = none ∧
    (∀ t : ℕ, 1 ≤ t → t < n →
      (_estimate_flows nav aum).2.val.getD t none =
        vsub ((pct_change aum.val).getD t none) ((pct_change nav.val).getD t none) ∧
      (_estimate_flows nav aum).1.val.getD t none =
        vmul ((_estimate_flows nav aum).2.val.getD t none) (aum.val.getD (t - 1) none)) := by
  have hlw : (_estimate_flows nav aum).2.val.length = n := by
    simp [_estimate_flows, length_pct_change, hnav, haum]
  have hla : (_estimate_flows nav aum).1.val.length = n := by
    simp [_estimate_flows, length_pct_change, length_shift1, hnav, haum]
  refine ⟨rfl, rfl, hla, hlw, ?_, ?_, ?_⟩
  · by_cases h0 : 0 < n
    · show (List.zipWith vsub (pct_change aum.val) (pct_change nav.val)).getD 0 none = none
      rw [getD_zipWith_in _ _ _ _ _ none none (by rw [length_pct_change, haum]; exact h0)
        (by rw [length_pct_change, hnav]; exact h0)]
      rw [pct_change_getD _ _ (by omega)]
      simp [vsub]
    · exact List.getD_eq_default _ _ (by omega)
  · by_cases h0 : 0 < n
    · show (List.zipWith vmul _ (shift1 aum.val)).getD 0 none = none
      rw [getD_zipWith_in _ _ _ _ _ none none
        (by simp [List.length_zipWith, length_pct_change, haum, hnav]; omega)
        (by rw [length_shift1, haum]; exact h0)]
      rw [shift1_getD _ _ (by omega)]
      simp [vmul_none]
    · exact List.getD_eq_default _ _ (by omega)
  · intro t h1 htn
    have hw : (_estimate_flows nav aum).2.val.getD t none =
        vsub ((pct_change aum.val).getD t none) ((pct_change nav.val).getD t none) := by
      show (List.zipWith vsub (pct_change aum.val) (pct_change nav.val)).getD t none = _
      rw [getD_zipWith_in _ _ _ _ _ none none (by rw [length_pct_change, haum]; exact htn)
        (by rw [length_pct_change, hnav]; exact htn)]
    refine ⟨hw, ?_⟩
    show (List.zipWith vmul (List.zipWith vsub (pct_change aum.val) (pct_change nav.val))
      (shift1 aum.val)).getD t none = _
    rw [getD_zipWith_in _ _ _ _ _ none none (by rw [← hlw] at htn; exact htn)
      (by rw [length_shift1, haum]; exact htn)]
    rw [shift1_getD _ _ (by omega)]
    have ht0 : ¬ t = 0 := by omega
    simp only [ht0, if_false]
    rfl

/-- Witness for C4: on the spec's P7 scenario series, the estimated flow
weight at step 1 is `0.2 - 0.05 = 3/20` and the flow amount is `150`. -/
theorem estimate_flows_spec_witness :
    (_estimate_flows navW aumW).2.val.getD 1 none = some (3 / 20) ∧
    (_estimate_flows navW aumW).1.val.getD 1 none = some 150 := by
  have h := (estimate_flows_spec navW aumW 3 rfl rfl rfl).2.2.2.2.2.2 1 (by norm_num) (by norm_num)
  have hw : (_estimate_flows navW aumW).2.val.getD 1 none = some (3 / 20) := by
    rw [h.1, pct_change_getD aumW.val 1 (by norm_num [aumW]),
      pct_change_getD navW.val 1 (by norm_num [navW])]
    norm_num [navW, aumW, vdiv, vsub, List.getD_cons_zero, List.getD_cons_succ]
  refine ⟨hw, ?_⟩
  rw [h.2, hw]
  norm_num [aumW, vmul, List.getD_cons_zero, List.getD_cons_succ]

/-- C1: the cash-flow vector handed to the solver is the elementwise negation
of `flows`, with index 0 overwritten to `-aum[0]` and `aum[-1]` added onto the
existing value at the last index; inside the solver the time axis is
`(date - date_min).days / 365.0`; the engine returns the solver's result
verbatim, both for supplied and for estimated flows. -/
theorem mwr_cashflow_construction (s1 : Stage1) (s2 : Stage2) (nav aum flows : Series)
    (n : ℕ) (haum : aum.val.length = n) (hf : flows.val.length = n) (h2 : 2 ≤ n) :
    (buildCashflows aum flows).idx = flows.idx ∧
    (buildCashflows aum flows).val.length = n ∧
    (∀ i : ℕ, i < n →
      (buildCashflows aum flows).val.getD i none =
        if i = 0 then vneg (aum.val.getD 0 none)
        else if i = n - 1 then
          vadd (vneg (flows.val.getD i none)) (aum.val.getD (n - 1) none)
        else vneg (flows.val.getD i none)) ∧
    money_weighted_return_annualized s1 s2 nav aum (some flows) =
      _xirr s1 s2 (buildCashflows aum flows) ∧
    money_weighted_return_annualized s1 s2 nav aum none =
      _xirr s1 s2 (buildCashflows aum (_estimate_flows nav aum).1) ∧
    (∀ c : Series, ∀ j : ℕ, j < (filterZeros c).length →
      (xirrTimes c).getD j (0, none) =
        (((((filterZeros c).getD j (0, none)).1 -
            (listMin ((filterZeros c).map Prod.fst)).getD 0 : ℤ) : ℚ) / 365,
          ((filterZeros c).getD j (0, none)).2)) := by
  have hL0 : (flows.val.map (vmul (some (-1)))).length = n := by simp [hf]
  have hL1 : ((flows.val.map (vmul (some (-1)))).set 0 (vneg (aum.val.getD 0 none))).length = n := by
    simp [hf]
  have hval : (buildCashflows aum flows).val =
      ((flows.val.map (vmul (some (-1)))).set 0 (vneg (aum.val.getD 0 none))).set (n - 1)
        (vadd (((flows.val.map (vmul (some (-1)))).set 0
            (vneg (aum.val.getD 0 none))).getD (n - 1) none)
          (aum.val.getD (aum.val.length - 1) none)) := by
    simp only [buildCashflows]
    rw [hL1]
  refine ⟨rfl, ?_, ?_, rfl, rfl, ?_⟩
  · rw [hval]
    simp [hf]
  · intro i hin
    by_cases hi0 : i = 0
    · subst hi0
      rw [hval, getD_set_ne _ _ _ _ _ (by omega), getD_set_self _ _ _ _ (by omega)]
      simp
    · by_cases hil : i = n - 1
      · subst hil
        rw [hval, getD_set_self _ _ _ _ (by rw [hL1]; omega),
          getD_set_ne _ _ _ _ _ (by omega),
          getD_map_in _ _ _ _ none (by omega), vmul_neg_one, haum]
        have hne : ¬ (n - 1 = 0) := by omega
        simp [hne]
      · rw [hval, getD_set_ne _ _ _ _ _ (by omega), getD_set_ne _ _ _ _ _ (by omega),
          getD_map_in _ _ _ _ none (by omega), vmul_neg_one]
        simp [hi0, hil]
  · intro c j hj
    unfold xirrTimes reindexYears
    rw [getD_map_in _ _ _ _ (0, none) hj]

/-- Witness for C1: on a concrete three-point series, the solver input is
`[-aum[0], -flows[1], -flows[2] + aum[2]] = [-1000, -150, 1200]`. -/
theorem mwr_cashflow_construction_witness :
    (buildCashflows aumW flowsW).val.getD 0 none = some (-1000) ∧
    (buildCashflows aumW flowsW).val.getD 1 none = some (-150) ∧
    (buildCashflows aumW flowsW).val.getD 2 none = some 1200 := by
  have h := (mwr_cashflow_construction (stOk (NumResult.real 0)) (stErr SolveErr.other)
    navW aumW flowsW 3 rfl rfl (by norm_num)).2.2.1
  refine ⟨?_, ?_, ?_⟩
  · rw [h 0 (by norm_num)]
    norm_num [aumW, vneg, List.getD_cons_zero]
  · rw [h 1 (by norm_num)]
    norm_num [flowsW, vneg, List.getD_cons_zero, List.getD_cons_succ]
  · rw [h 2 (by norm_num)]
    norm_num [aumW, flowsW, vneg, vadd, List.getD_cons_zero, List.getD_cons_succ]

/-! Helper lemmas about the counterfactual simulation loop. -/

theorem simRun_length (inv : Bool) (fw navR fa0 av0 : List Val) (k : ℕ) :
    (simRun inv fw navR fa0 av0 k).1.length = fa0.length ∧
    (simRun inv fw navR fa0 av0 k).2.length = av0.length := by
  induction k with
  | zero => exact ⟨rfl, rfl⟩
  | succ k ih =>
    simp only [simRun, simStep]
    simp [ih.1, ih.2]

theorem simRun_stable (inv : Bool) (fw navR fa0 av0 : List Val) (i k : ℕ) (hik : i ≤ k) :
    (simRun inv fw navR fa0 av0 k).1.getD i none =
      (simRun inv fw navR fa0 av0 i).1.getD i none ∧
    (simRun inv fw navR fa0 av0 k).2.getD i none =
      (simRun inv fw navR fa0 av0 i).2.getD i none := by
  induction k with
  | zero =>
    have h0 : i = 0 := Nat.le_zero.mp hik
    subst h0
    exact ⟨rfl, rfl⟩
  | succ k ih =>
    by_cases hi : i = k + 1
    · subst hi
      exact ⟨rfl, rfl⟩
    · have hik' : i ≤ k := by omega
      have h := ih hik'
      constructor
      · show ((simRun inv fw navR fa0 av0 k).1.set (k + 1) _).getD i none = _
        rw [getD_set_ne _ _ _ _ _ (by omega)]
        exact h.1
      · show ((simRun inv fw navR fa0 av0 k).2.set (k + 1) _).getD i none = _
        rw [getD_set_ne _ _ _ _ _ (by omega)]
        exact h.2

theorem simRun_step_values (inv : Bool) (fw navR fa0 av0 : List Val) (j : ℕ)
    (hfa : j + 1 < fa0.length) (hav : j + 1 < av0.length) :
    (simRun inv fw navR fa0 av0 (j + 1)).1.getD (j + 1) none =
      (if inv then
        vmul (vmul (fw.getD (j + 1) none) ((simRun inv fw navR fa0 av0 j).2.getD j none))
          (some (-1))
      else vmul (fw.getD (j + 1) none) ((simRun inv fw navR fa0 av0 j).2.getD j none)) ∧
    (simRun inv fw navR fa0 av0 (j + 1)).2.getD (j + 1) none =
      vadd (vmul ((simRun inv fw navR fa0 av0 j).2.getD j none) (navR.getD (j + 1) none))
        ((simRun inv fw navR fa0 av0 (j + 1)).1.getD (j + 1) none) := by
  have hl1 : j + 1 < (simRun inv fw navR fa0 av0 j).1.length := by
    rw [(simRun_length inv fw navR fa0 av0 j).1]; exact hfa
  have hl2 : j + 1 < (simRun inv fw navR fa0 av0 j).2.length := by
    rw [(simRun_length inv fw navR fa0 av0 j).2]; exact hav
  constructor
  · show ((simRun inv fw navR fa0 av0 j).1.set (j + 1) _).getD (j + 1) none = _
    rw [getD_set_self _ _ _ _ (by omega)]
    simp [simStep]
  · show ((simRun inv fw navR fa0 av0 j).2.set (j + 1) _).getD (j + 1) none = _
    rw [getD_set_self _ _ _ _ (by omega)]
    show _ = vadd _ (((simRun inv fw navR fa0 av0 j).1.set (j + 1) _).getD (j + 1) none)
    rw [getD_set_self _ _ _ _ (by omega)]
    simp [simStep]

theorem simRun_spec (inv : Bool) (fw navR fa0 av0 : List Val) (n : ℕ)
    (hfa : fa0.length = n) (hav : av0.length = n) (i : ℕ) (h1 : 1 ≤ i) (hin : i < n) :
    (simRun inv fw navR fa0 av0 (n - 1)).1.getD i none =
      (if inv then
        vmul (vmul (fw.getD i none) ((simRun inv fw navR fa0 av0 (n - 1)).2.getD (i - 1) none))
          (some (-1))
      else vmul (fw.getD i none) ((simRun inv fw navR fa0 av0 (n - 1)).2.getD (i - 1) none)) ∧
    (simRun inv fw navR fa0 av0 (n - 1)).2.getD i none =
      vadd (vmul ((simRun inv fw navR fa0 av0 (n - 1)).2.getD (i - 1) none) (navR.getD i none))
        ((simRun inv fw navR fa0 av0 (n - 1)).1.getD i none) := by
  obtain ⟨j, rfl⟩ : ∃ j, i = j + 1 := ⟨i - 1, by omega⟩
  simp only [Nat.add_sub_cancel]
  have hstf := (simRun_stable inv fw navR fa0 av0 (j + 1) (n - 1) (by omega)).1
  have hsta := (simRun_stable inv fw navR fa0 av0 (j + 1) (n - 1) (by omega)).2
  have hstp := (simRun_stable inv fw navR fa0 av0 j (n - 1) (by omega)).2
  have hsv := simRun_step_values inv fw navR fa0 av0 j (by omega) (by omega)
  constructor
  · rw [hstf, hstp]
    exact hsv.1
  · rw [hsta, hstp, hstf]
    exact hsv.2

theorem simRun_init (inv : Bool) (fw navR fa0 av0 : List Val) (k : ℕ) :
    (simRun inv fw navR fa0 av0 k).2.getD 0 none = av0.getD 0 none :=
  (simRun_stable inv fw navR fa0 av0 0 k (Nat.zero_le _)).2

/-- C5: `theoretical_mwr_annualized` clips each estimated weight to
`[-|m|, |m|]`, keeps the simulated AUM at index 0 equal to `aum[0]`, computes
`flows_amount[i] = flows_weight[i] * aum_sim[i-1]` and
`aum_sim[i] = aum_sim[i-1] * (nav.pct_change()[i] + 1.0) + flows_amount[i]`
for every `i` from 1 to the end, and calls the MWR engine with the synthetic
AUM and synthetic flows as explicit flows (so the estimator is bypassed). -/
theorem theoretical_mwr_spec (s1 : Stage1) (s2 : Stage2) (nav aum : Series) (m : ℚ)
    (n : ℕ) (hnav : nav.val.length = n) (haum : aum.val.length = n) (h2 : 2 ≤ n) :
    (∀ i : ℕ, i < n →
      (clippedWeights nav aum m).getD i none =
        vclip (-|m|) |m| ((_estimate_flows nav aum).2.val.getD i none)) ∧
    (simState false nav aum m).2.getD 0 none = aum.val.getD 0 none ∧
    (∀ i : ℕ, 1 ≤ i → i < n →
      (simState false nav aum m).1.getD i none =
        vmul ((clippedWeights nav aum m).getD i none)
          ((simState false nav aum m).2.getD (i - 1) none) ∧
      (simState false nav aum m).2.getD i none =
        vadd (vmul ((simState false nav aum m).2.getD (i - 1) none)
            (vadd ((pct_change nav.val).getD i none) (some 1)))
          ((simState false nav aum m).1.getD i none)) ∧
    theoretical_mwr_annualized s1 s2 nav aum m =
      money_weighted_return_annualized s1 s2 nav
        ⟨aum.idx, (simState false nav aum m).2⟩
        (some ⟨aum.idx, (simState false nav aum m).1⟩) ∧
    theoretical_mwr_annualized s1 s2 nav aum m =
      _xirr s1 s2 (buildCashflows ⟨aum.idx, (simState false nav aum m).2⟩
        ⟨aum.idx, (simState false nav aum m).1⟩) := by
  have hfa0 : (_estimate_flows nav aum).1.val.length = n := by
    simp [_estimate_flows, length_pct_change, length_shift1, hnav, haum]
  have hsim : simState false nav aum m =
      simRun false (clippedWeights nav aum m) (navReturns nav)
        (_estimate_flows nav aum).1.val aum.val (n - 1) := by
    simp only [simState, haum]
  have hnavR : ∀ i : ℕ, i < n →
      (navReturns nav).getD i none = vadd ((pct_change nav.val).getD i none) (some 1) := by
    intro i hin
    have hl : i < (pct_change nav.val).length := by rw [length_pct_change, hnav]; exact hin
    exact getD_map_in _ _ _ _ none hl
  refine ⟨?_, ?_, ?_, rfl, rfl⟩
  · intro i hin
    have hl : i < ((_estimate_flows nav aum).2.val).length := by
      simp only [_estimate_flows]
      simp [length_pct_change, hnav, haum]
      omega
    exact getD_map_in _ _ _ _ none hl
  · rw [hsim]
    exact simRun_init false _ _ _ _ (n - 1)
  · intro i h1 hin
    have hs := simRun_spec false (clippedWeights nav aum m) (navReturns nav)
      (_estimate_flows nav aum).1.val aum.val n hfa0 haum i h1 hin
    rw [hsim, ← hnavR i hin]
    exact ⟨hs.1, hs.2⟩

/-- C6: the inverted variant shares the clipping and the AUM recurrence of
the weight-clipped variant; only the per-step flow formula carries an extra
`* -1`: `flows_amount_inv[i] = flows_weight[i] * aum_inv[i-1] * -1`. -/
theorem theoretical_mwr_inverted_spec (s1 : Stage1) (s2 : Stage2) (nav aum : Series) (m : ℚ)
    (n : ℕ) (hnav : nav.val.length = n) (haum : aum.val.length = n) (h2 : 2 ≤ n) :
    (∀ i : ℕ, i < n →
      (clippedWeights nav aum m).getD i none =
        vclip (-|m|) |m| ((_estimate_flows nav aum).2.val.getD i none)) ∧
    (simState true nav aum m).2.getD 0 none = aum.val.getD 0 none ∧
    (∀ i : ℕ, 1 ≤ i → i < n →
      (simState true nav aum m).1.getD i none =
        vmul (vmul ((clippedWeights nav aum m).getD i none)
          ((simState true nav aum m).2.getD (i - 1) none)) (some (-1)) ∧
      (simState true nav aum m).2.getD i none =
        vadd (vmul ((simState true nav aum m).2.getD (i - 1) none)
            (vadd ((pct_change nav.val).getD i none) (some 1)))
          ((simState true nav aum m).1.getD i none)) ∧
    theoretical_mwr_annualized_with_inverted_flows s1 s2 nav aum m =
      money_weighted_return_annualized s1 s2 nav
        ⟨aum.idx, (simState true nav aum m).2⟩
        (some ⟨aum.idx, (simState true nav aum m).1⟩) := by
  have hfa0 : (_estimate_flows nav aum).1.val.length = n := by
    simp [_estimate_flows, length_pct_change, length_shift1, hnav, haum]
  have hsim : simState true nav aum m =
      simRun true (clippedWeights nav aum m) (navReturns nav)
        (_estimate_flows nav aum).1.val aum.val (n - 1) := by
    simp only [simState, haum]
  have hnavR : ∀ i : ℕ, i < n →
      (navReturns nav).getD i none = vadd ((pct_change nav.val).getD i none) (some 1) := by
    intro i hin
    have hl : i < (pct_change nav.val).length := by rw [length_pct_change, hnav]; exact hin
    exact getD_map_in _ _ _ _ none hl
  refine ⟨?_, ?_, ?_, rfl⟩
  · intro i hin
    have hl : i < ((_estimate_flows nav aum).2.val).length := by
      simp only [_estimate_flows]
      simp [length_pct_change, hnav, haum]
      omega
    exact getD_map_in _ _ _ _ none hl
  · rw [hsim]
    exact simRun_init true _ _ _ _ (n - 1)
  · intro i h1 hin
    have hs := simRun_spec true (clippedWeights nav aum m) (navReturns nav)
      (_estimate_flows nav aum).1.val aum.val n hfa0 haum i h1 hin
    rw [hsim, ← hnavR i hin]
    exact ⟨hs.1, hs.2⟩

/-! Concrete evaluations on the witness fixtures. -/

theorem pct_navW : pct_change navW.val = [none, some (1 / 20), some (1 / 21)] := by
  norm_num [navW, pct_change, vdiv, vsub, List.range_succ]

theorem pct_aumW : pct_change aumW.val = [none, some (1 / 5), some (1 / 24)] := by
  norm_num [aumW, pct_change, vdiv, vsub, List.range_succ]

theorem shift1_aumW : shift1 aumW.val = [none, some 1000, some 1200] := by
  norm_num [aumW, shift1, List.range_succ]

theorem fwW : (_estimate_flows navW aumW).2.val = [none, some (3 / 20), some (-1 / 168)] := by
  show List.zipWith vsub (pct_change aumW.val) (pct_change navW.val) = _
  rw [pct_aumW, pct_navW]
  norm_num [List.zipWith, vsub]

theorem faW : (_estimate_flows navW aumW).1.val = [none, some 150, some (-50 / 7)] := by
  show List.zipWith vmul (List.zipWith vsub (pct_change aumW.val) (pct_change navW.val))
      (shift1 aumW.val) = _
  rw [pct_aumW, pct_navW, shift1_aumW]
  norm_num [List.zipWith, vsub, vmul]

theorem cwW : clippedWeights navW aumW (3 / 10) = [none, some (3 / 20), some (-1 / 168)] := by
  rw [clippedWeights, fwW]
  norm_num [vclip, min_def, max_def, abs]

/-- Witness for C5: on the witness series with `max_flows_weight = 0.3` (no
clip binds), the simulated path reproduces the recorded AUM:
`aum_sim = [1000, 1200, 1250]` and `flows_amount = [NaN, 150, -50/7]`. -/
theorem theoretical_mwr_spec_witness :
    (simState false navW aumW (3 / 10)).2.getD 0 none = some 1000 ∧
    (simState false navW aumW (3 / 10)).1.getD 1 none = some 150 ∧
    (simState false navW aumW (3 / 10)).2.getD 1 none = some 1200 ∧
    (simState false navW aumW (3 / 10)).1.getD 2 none = some (-50 / 7) ∧
    (simState false navW aumW (3 / 10)).2.getD 2 none = some 1250 := by
  have h := theoretical_mwr_spec (stOk (NumResult.real 0)) (stErr SolveErr.other)
    navW aumW (3 / 10) 3 rfl rfl (by norm_num)
  have h0 : (simState false navW aumW (3 / 10)).2.getD 0 none = some 1000 := by
    rw [h.2.1]; rfl
  have e1 := h.2.2.1 1 (by norm_num) (by norm_num)
  have hcw1 : (clippedWeights navW aumW (3 / 10)).getD 1 none = some (3 / 20) := by
    rw [cwW]; rfl
  have hf1 : (simState false navW aumW (3 / 10)).1.getD 1 none = some 150 := by
    rw [e1.1, hcw1, h0]
    norm_num [vmul]
  have ha1 : (simState false navW aumW (3 / 10)).2.getD 1 none = some 1200 := by
    rw [e1.2, h0, hf1, pct_navW]
    norm_num [vadd, vmul, List.getD_cons_succ, List.getD_cons_zero]
  have e2 := h.2.2.1 2 (by norm_num) (by norm_num)
  have hcw2 : (clippedWeights navW aumW (3 / 10)).getD 2 none = some (-1 / 168) := by
    rw [cwW]; rfl
  have hf2 : (simState false navW aumW (3 / 10)).1.getD 2 none = some (-50 / 7) := by
    rw [e2.1, hcw2]
    rw [show (2 : ℕ) - 1 = 1 from rfl, ha1]
    norm_num [vmul]
  have ha2 : (simState false navW aumW (3 / 10)).2.getD 2 none = some 1250 := by
    rw [e2.2]
    rw [show (2 : ℕ) - 1 = 1 from rfl, ha1, hf2, pct_navW]
    norm_num [vadd, vmul, List.getD_cons_succ, List.getD_cons_zero]
  exact ⟨h0, hf1, ha1, hf2, ha2⟩

/-- Witness for C6: on the same series, inverting the flows gives
`flows_amount_inv[1] = 0.15 * 1000 * -1 = -150`, `aum_inv[1] = 900`,
`flows_amount_inv[2] = (-1/168) * 900 * -1 = 75/14`,
`aum_inv[2] = 900 * (22/21) + 75/14 = 13275/14`. -/
theorem theoretical_mwr_inverted_spec_witness :
    (simState true navW aumW (3 / 10)).2.getD 0 none = some 1000 ∧
    (simState true navW aumW (3 / 10)).1.getD 1 none = some (-150) ∧
    (simState true navW aumW (3 / 10)).2.getD 1 none = some 900 ∧
    (simState true navW aumW (3 / 10)).1.getD 2 none = some (75 / 14) ∧
    (simState true navW aumW (3 / 10)).2.getD 2 none = some (13275 / 14) := by
  have h := theoretical_mwr_inverted_spec (stOk (NumResult.real 0)) (stErr SolveErr.other)
    navW aumW (3 / 10) 3 rfl rfl (by norm_num)
  have h0 : (simState true navW aumW (3 / 10)).2.getD 0 none = some 1000 := by
    rw [h.2.1]; rfl
  have e1 := h.2.2.1 1 (by norm_num) (by norm_num)
  have hcw1 : (clippedWeights navW aumW (3 / 10)).getD 1 none = some (3 / 20) := by
    rw [cwW]; rfl
  have hf1 : (simState true navW aumW (3 / 10)).1.getD 1 none = some (-150) := by
    rw [e1.1, hcw1, h0]
    norm_num [vmul]
  have ha1 : (simState true navW aumW (3 / 10)).2.getD 1 none = some 900 := by
    rw [e1.2, h0, hf1, pct_navW]
    norm_num [vadd, vmul, List.getD_cons_succ, List.getD_cons_zero]
  have e2 := h.2.2.1 2 (by norm_num) (by norm_num)
  have hcw2 : (clippedWeights navW aumW (3 / 10)).getD 2 none = some (-1 / 168) := by
    rw [cwW]; rfl
  have hf2 : (simState true navW aumW (3 / 10)).1.getD 2 none = some (75 / 14) := by
    rw [e2.1, hcw2]
    rw [show (2 : ℕ) - 1 = 1 from rfl, ha1]
    norm_num [vmul]
  have ha2 : (simState true navW aumW (3 / 10)).2.getD 2 none = some (13275 / 14) := by
    rw [e2.2]
    rw [show (2 : ℕ) - 1 = 1 from rfl, ha1, hf2, pct_navW]
    norm_num [vadd, vmul, List.getD_cons_succ, List.getD_cons_zero]
  exact ⟨h0, hf1, ha1, hf2, ha2⟩

/-! Helper lemmas about `listMin` / `listMax` and the sign-change check. -/

theorem listMin_mem {α : Type} [LinearOrder α] {l : List α} {m : α}
    (h : listMin l = some m) : m ∈ l := by
  induction l with
  | nil => simp [listMin] at h
  | cons q qs ih =>
    unfold listMin at h
    cases hq : listMin qs with
    | none =>
      rw [hq] at h
      injection h with h
      exact h ▸ List.mem_cons_self q qs
    | some m2 =>
      rw [hq] at h
      injection h with h
      rcases min_choice q m2 with hc | hc
      · rw [hc] at h
        exact h ▸ List.mem_cons_self q qs
      · rw [hc] at h
        exact List.mem_cons_of_mem q (ih (h ▸ hq))

theorem listMax_mem {α : Type} [LinearOrder α] {l : List α} {m : α}
    (h : listMax l = some m) : m ∈ l := by
  induction l with
  | nil => simp [listMax] at h
  | cons q qs ih =>
    unfold listMax at h
    cases hq : listMax qs with
    | none =>
      rw [hq] at h
      injection h with h
      exact h ▸ List.mem_cons_self q qs
    | some m2 =>
      rw [hq] at h
      injection h with h
      rcases max_choice q m2 with hc | hc
      · rw [hc] at h
        exact h ▸ List.mem_cons_self q qs
      · rw [hc] at h
        exact List.mem_cons_of_mem q (ih (h ▸ hq))

theorem listMin_isSome {α : Type} [LinearOrder α] (l : List α) (h : l ≠ []) :
    ∃ m, listMin l = some m := by
  cases l with
  | nil => exact absurd rfl h
  | cons q qs =>
    unfold listMin
    cases listMin qs with
    | none => exact ⟨q, rfl⟩
    | some m => exact ⟨min q m, rfl⟩

theorem listMax_isSome {α : Type} [LinearOrder α] (l : List α) (h : l ≠ []) :
    ∃ m, listMax l = some m := by
  cases l with
  | nil => exact absurd rfl h
  | cons q qs =>
    unfold listMax
    cases listMax qs with
    | none => exact ⟨q, rfl⟩
    | some m => exact ⟨max q m, rfl⟩

/-- Core of the no-sign-change early return: when the pandas min and max of
the filtered vector are finite with product `≥ 0`, `_xirr` is NaN without
consulting either solver stage. -/
theorem xirr_sameSign_nan (s1 : Stage1) (s2 : Stage2) (v : Series) (m M : ℚ)
    (hm : listMin (finiteVals (filterZeros v)) = some m)
    (hM : listMax (finiteVals (filterZeros v)) = some M)
    (hprod : 0 ≤ m * M) : _xirr s1 s2 v = Except.ok none := by
  have hc : sameSignCheck (filterZeros v) = true := by
    unfold sameSignCheck
    rw [hm, hM]
    exact decide_eq_true hprod
  unfold _xirr
  rw [hc]
  rfl

/-- When every value of the series is finite, nonzero, and satisfies `P`,
the filtered finite values are nonempty and all satisfy `P`. -/
theorem finiteVals_filterZeros_all (v : Series) (P : ℚ → Prop) (hne : v.val ≠ [])
    (hlen : v.idx.length = v.val.length)
    (hall : ∀ w ∈ v.val, ∃ q, w = some q ∧ P q ∧ q ≠ 0) :
    finiteVals (filterZeros v) ≠ [] ∧ ∀ q ∈ finiteVals (filterZeros v), P q := by
  constructor
  · obtain ⟨w, ws, hv⟩ := List.exists_cons_of_ne_nil hne
    have hi : v.idx ≠ [] := by
      intro hnil
      rw [hnil, hv] at hlen
      simp at hlen
    obtain ⟨d, ds, hd⟩ := List.exists_cons_of_ne_nil hi
    obtain ⟨q, hw, _, hq0⟩ := hall w (by rw [hv]; exact List.mem_cons_self w ws)
    have hzip : v.idx.zip v.val = (d, w) :: ds.zip ws := by rw [hv, hd]; rfl
    unfold filterZeros
    rw [hzip]
    subst hw
    unfold finiteVals
    simp [List.filter_cons, List.filterMap_cons, hq0]
  · intro q hq
    rw [finiteVals, List.mem_filterMap] at hq
    obtain ⟨p, hpmem, hp2⟩ := hq
    rw [filterZeros, List.mem_filter] at hpmem
    have hpz := hpmem.1
    have hp2v : p.2 ∈ v.val := (List.of_mem_zip (by rw [← Prod.mk.eta (p := p)] at hpz; exact hpz)).2
    obtain ⟨q2, hw, hP, _⟩ := hall p.2 hp2v
    rw [hw] at hp2
    injection hp2 with hqq
    exact hqq ▸ hP

/-- C2, amended: zeros are removed before solving, and whenever the filtered
vector's pandas min and max are finite with product `≥ 0` the solver returns
NaN immediately; consequently every nonempty all-positive or all-negative
vector yields NaN.  The all-zero case of the original claim is excluded:
there the filtered vector is empty, its min/max are NaN, the float comparison
`NaN * NaN >= 0` is False, and the code proceeds to the numeric stages. -/
theorem xirr_sign_check_spec :
    (∀ (s1 : Stage1) (s2 : Stage2) (v : Series) (m M : ℚ),
      listMin (finiteVals (filterZeros v)) = some m →
      listMax (finiteVals (filterZeros v)) = some M →
      0 ≤ m * M → _xirr s1 s2 v = Except.ok none) ∧
    (∀ (s1 : Stage1) (s2 : Stage2) (v : Series),
      v.val ≠ [] → v.idx.length = v.val.length →
      v.val.all vposB = true → _xirr s1 s2 v = Except.ok none) ∧
    (∀ (s1 : Stage1) (s2 : Stage2) (v : Series),
      v.val ≠ [] → v.idx.length = v.val.length →
      v.val.all vnegB = true → _xirr s1 s2 v = Except.ok none) := by
  refine ⟨fun s1 s2 v m M hm hM hp => xirr_sameSign_nan s1 s2 v m M hm hM hp, ?_, ?_⟩
  · intro s1 s2 v hne hlen hall
    have hmem : ∀ w ∈ v.val, ∃ q, w = some q ∧ 0 < q ∧ q ≠ 0 := by
      intro w hw
      have hb := (List.all_eq_true.mp hall) w hw
      cases w with
      | none => simp [vposB] at hb
      | some q =>
        simp only [vposB, decide_eq_true_eq] at hb
        exact ⟨q, rfl, hb, ne_of_gt hb⟩
    obtain ⟨hFne, hFpos⟩ := finiteVals_filterZeros_all v (fun q => 0 < q) hne hlen hmem
    obtain ⟨m, hm⟩ := listMin_isSome _ hFne
    obtain ⟨M, hM⟩ := listMax_isSome _ hFne
    exact xirr_sameSign_nan s1 s2 v m M hm hM
      (le_of_lt (mul_pos (hFpos m (listMin_mem hm)) (hFpos M (listMax_mem hM))))
  · intro s1 s2 v hne hlen hall
    have hmem : ∀ w ∈ v.val, ∃ q, w = some q ∧ q < 0 ∧ q ≠ 0 := by
      intro w hw
      have hb := (List.all_eq_true.mp hall) w hw
      cases w with
      | none => simp [vnegB] at hb
      | some q =>
        simp only [vnegB, decide_eq_true_eq] at hb
        exact ⟨q, rfl, hb, ne_of_lt hb⟩
    obtain ⟨hFne, hFneg⟩ := finiteVals_filterZeros_all v (fun q => q < 0) hne hlen hmem
    obtain ⟨m, hm⟩ := listMin_isSome _ hFne
    obtain ⟨M, hM⟩ := listMax_isSome _ hFne
    exact xirr_sameSign_nan s1 s2 v m M hm hM
      (le_of_lt (mul_pos_of_neg_of_neg (hFneg m (listMin_mem hm)) (hFneg M (listMax_mem hM))))

/-- Witness for C2: an all-positive two-point vector yields NaN regardless of
the solver stages. -/
theorem xirr_sign_check_spec_witness :
    _xirr (stOk (NumResult.real (1 / 2))) (stOk (NumResult.real (1 / 4)))
      ⟨[0, 365], [some 5, some 7]⟩ = Except.ok none := by
  exact xirr_sign_check_spec.2.1 _ _ ⟨[0, 365], [some 5, some 7]⟩
    (by simp) rfl (by norm_num [vposB])

/-- Counterexample for C2: on the all-zero cashflow vector the zero filter
leaves an empty series, pandas min/max are NaN, the check `NaN * NaN >= 0`
is False, and `_xirr` proceeds to the numeric stages instead of returning NaN
— with a newton stage raising RuntimeError and a brentq stage returning the
left bracket end (what scipy's brentq does when `f(a) == 0`), the solver
returns `-0.999999999999999`, not NaN. -/
theorem xirr_all_zero_counterexample :
    ¬ (∀ (s1 : Stage1) (s2 : Stage2) (v : Series),
        (∀ i : ℕ, i < v.val.length → v.val.getD i none = some 0) →
        _xirr s1 s2 v = Except.ok none) := by
  intro h
  have hz : ∀ i : ℕ, i < (Series.mk [0, 365] [some 0, some 0]).val.length →
      (Series.mk [0, 365] [some 0, some 0]).val.getD i none = some 0 := by
    intro i hi
    simp only [Series.mk.injEq, List.length_cons, List.length_nil] at hi
    interval_cases i <;> rfl
  have hc := h (stErr SolveErr.runtime)
    (stOk (NumResult.real (-(999999999999999 / 1000000000000000))))
    ⟨[0, 365], [some 0, some 0]⟩ hz
  have he : _xirr (stErr SolveErr.runtime)
      (stOk (NumResult.real (-(999999999999999 / 1000000000000000))))
      (⟨[0, 365], [some 0, some 0]⟩ : Series) =
      Except.ok (some (-(999999999999999 / 1000000000000000))) := by
    have hfz : filterZeros (⟨[0, 365], [some 0, some 0]⟩ : Series) = [] := by
      norm_num [filterZeros, List.filter_cons]
    unfold _xirr
    rw [hfz]
    norm_num [sameSignCheck, finiteVals, listMin, listMax, stErr, stOk, interpResult]
  rw [hc] at he
  simp at he

/-- C7: the two-stage dispatch of `_xirr`: newton is invoked with `x0 = 0`
and `rtol = 1e-4`; a real ok result is returned as is, a complex ok result
becomes NaN, and in either ok case the brentq stage is irrelevant; the brentq
fallback — on the bracket `(-0.999999999999999, 100)` with `maxiter = 10^4` —
runs exactly when newton raises RuntimeError or OverflowError, its ok result
interpreted the same way and its exceptions propagating; a missing sign
change returns NaN, never an exception. -/
theorem xirr_two_stage_spec (s1 : Stage1) (s2 : Stage2) (c : Series) :
    (sameSignCheck (filterZeros c) = true → _xirr s1 s2 c = Except.ok none) ∧
    (∀ q : ℚ, sameSignCheck (filterZeros c) = false →
      s1 ⟨0, 1 / 10000⟩ (xirrTimes c) = Except.ok (NumResult.real q) →
      _xirr s1 s2 c = Except.ok (some q)) ∧
    (sameSignCheck (filterZeros c) = false →
      s1 ⟨0, 1 / 10000⟩ (xirrTimes c) = Except.ok NumResult.cplx →
      _xirr s1 s2 c = Except.ok none) ∧
    (∀ v : NumResult, s1 ⟨0, 1 / 10000⟩ (xirrTimes c) = Except.ok v →
      ∀ s2' : Stage2, _xirr s1 s2 c = _xirr s1 s2' c) ∧
    (∀ e : SolveErr, e = SolveErr.runtime ∨ e = SolveErr.overflow →
      sameSignCheck (filterZeros c) = false →
      s1 ⟨0, 1 / 10000⟩ (xirrTimes c) = Except.error e →
      (∀ v : NumResult,
        s2 ⟨-(999999999999999 / 1000000000000000), 100, 10 ^ 4⟩ (xirrTimes c) =
          Except.ok v →
        _xirr s1 s2 c = Except.ok (interpResult v)) ∧
      (∀ e2 : SolveErr,
        s2 ⟨-(999999999999999 / 1000000000000000), 100, 10 ^ 4⟩ (xirrTimes c) =
          Except.error e2 →
        _xirr s1 s2 c = Except.error e2)) := by
  refine ⟨?_, ?_, ?_, ?_, ?_⟩
  · intro hss
    unfold _xirr
    rw [hss]
    rfl
  · intro q hss hv
    unfold _xirr
    rw [if_neg (by simp [hss]), hv]
    rfl
  · intro hss hv
    unfold _xirr
    rw [if_neg (by simp [hss]), hv]
    rfl
  · intro v hv s2'
    unfold _xirr
    by_cases hss : sameSignCheck (filterZeros c) = true
    · rw [hss]
      rfl
    · rw [Bool.not_eq_true] at hss
      rw [hss, hv]
  · intro e he hss hv
    constructor
    · intro v hv2
      rcases he with he | he <;> subst he <;>
        (unfold _xirr; rw [if_neg (by simp [hss]), hv, hv2])
    · intro e2 hv2
      rcases he with he | he <;> subst he <;>
        (unfold _xirr; rw [if_neg (by simp [hss]), hv, hv2])

/-- Witness for C7: on a two-point sign-changing vector, a succeeding newton
stage returns its value with the fallback ignored, and a RuntimeError from
newton routes through the brentq stage. -/
theorem xirr_two_stage_spec_witness :
    _xirr (stOk (NumResult.real (1 / 10))) (stErr SolveErr.other) cfW =
      Except.ok (some (1 / 10)) ∧
    _xirr (stErr SolveErr.runtime) (stOk (NumResult.real 5)) cfW =
      Except.ok (some 5) := by
  have hss : sameSignCheck (filterZeros cfW) = false := by
    norm_num [cfW, filterZeros, List.filter_cons, sameSignCheck, finiteVals,
      listMin, listMax, min_def, max_def]
  constructor
  · exact (xirr_two_stage_spec _ _ cfW).2.1 (1 / 10) hss rfl
  · exact ((xirr_two_stage_spec _ _ cfW).2.2.2.2 SolveErr.runtime (Or.inl rfl) hss rfl).1
      (NumResult.real 5) rfl

/-- C9: `time_weighted_return_annualized` returns exactly
`((nav[-1] / nav[0]) ** (365.0 / days)) - 1` for series whose first and last
dates are strictly apart and whose first value is nonzero; on NAV
`[100, 121]` over exactly 365 days it returns `0.21`. -/
theorem twr_closed_form :
    (∀ nav : SeriesR, 0 < nav.idx.getLastD 0 - nav.idx.headI → nav.val.headI ≠ 0 →
      time_weighted_return_annualized nav =
        (nav.val.getLastD 0 / nav.val.headI) ^
          ((365 : ℝ) / ((nav.idx.getLastD 0 - nav.idx.headI : ℤ) : ℝ)) - 1) ∧
    time_weighted_return_annualized ⟨[0, 365], [100, 121]⟩ = 21 / 100 := by
  constructor
  · intro nav hd hv
    rfl
  · show ((121 : ℝ) / 100) ^ ((365 : ℝ) / (((365 : ℤ) - 0 : ℤ) : ℝ)) - 1 = 21 / 100
    rw [show ((365 : ℝ) / (((365 : ℤ) - 0 : ℤ) : ℝ)) = 1 by norm_num, Real.rpow_one]
    norm_num

/-- Witness for C9: the closed form applied to the two-point series of P3. -/
theorem twr_closed_form_witness :
    time_weighted_return_annualized ⟨[0, 365], [100, 121]⟩ =
      ((121 : ℝ) / 100) ^ ((365 : ℝ) / ((365 : ℤ) : ℝ)) - 1 := by
  have h := twr_closed_form.1 ⟨[0, 365], [100, 121]⟩ (by decide)
    (show (100 : ℝ) ≠ 0 by norm_num)
  rw [h]
  norm_num

/-! Helper lemmas for the zero-weight (max_flows_weight = 0) analysis. -/

theorem all_vposB_getD (l : List Val) (h : l.all vposB = true) (i : ℕ) (hi : i < l.length) :
    ∃ q, l.getD i none = some q ∧ 0 < q := by
  have hm : l.getD i none ∈ l := by
    rw [List.getD_eq_getElem _ _ hi]
    exact List.getElem_mem _
  have hb := List.all_eq_true.mp h _ hm
  cases hv : l.getD i none with
  | none => rw [hv] at hb; simp [vposB] at hb
  | some q =>
    rw [hv] at hb
    simp only [vposB, decide_eq_true_eq] at hb
    exact ⟨q, rfl, hb⟩

/-- The same positional characterization of `buildCashflows` used by the
engine claim, packaged for reuse. -/
theorem buildCashflows_getD (aum flows : Series) (n : ℕ)
    (haum : aum.val.length = n) (hf : flows.val.length = n) (h2 : 2 ≤ n)
    (i : ℕ) (hin : i < n) :
    (buildCashflows aum flows).val.getD i none =
      if i = 0 then vneg (aum.val.getD 0 none)
      else if i = n - 1 then
        vadd (vneg (flows.val.getD i none)) (aum.val.getD (n - 1) none)
      else vneg (flows.val.getD i none) := by
  have hL0 : (flows.val.map (vmul (some (-1)))).length = n := by simp [hf]
  have hL1 : ((flows.val.map (vmul (some (-1)))).set 0 (vneg (aum.val.getD 0 none))).length = n := by
    simp [hf]
  have hval : (buildCashflows aum flows).val =
      ((flows.val.map (vmul (some (-1)))).set 0 (vneg (aum.val.getD 0 none))).set (n - 1)
        (vadd (((flows.val.map (vmul (some (-1)))).set 0
            (vneg (aum.val.getD 0 none))).getD (n - 1) none)
          (aum.val.getD (aum.val.length - 1) none)) := by
    simp only [buildCashflows]
    rw [hL1]
  by_cases hi0 : i = 0
  · subst hi0
    rw [hval, getD_set_ne _ _ _ _ _ (by omega), getD_set_self _ _ _ _ (by omega)]
    simp
  · by_cases hil : i = n - 1
    · subst hil
      rw [hval, getD_set_self _ _ _ _ (by rw [hL1]; omega),
        getD_set_ne _ _ _ _ _ (by omega),
        getD_map_in _ _ _ _ none (by omega), vmul_neg_one, haum]
      have hne : ¬ (n - 1 = 0) := by omega
      simp [hne]
    · rw [hval, getD_set_ne _ _ _ _ _ (by omega), getD_set_ne _ _ _ _ _ (by omega),
        getD_map_in _ _ _ _ none (by omega), vmul_neg_one]
      simp [hi0, hil]

theorem length_buildCashflows (aum flows : Series) :
    (buildCashflows aum flows).val.length = flows.val.length := by
  simp [buildCashflows]

/-- Filtering a list whose last value is nonzero and whose other values are
all zero keeps exactly the last element. -/
theorem filter_last_only (w : List (ℤ × Val)) (hne : w ≠ [])
    (hl : ∃ qL, (w.getD (w.length - 1) (0, none)).2 = some qL ∧ qL ≠ 0)
    (hmid : ∀ i : ℕ, i < w.length - 1 → (w.getD i (0, none)).2 = some 0) :
    w.filter (fun p => decide (p.2 ≠ some 0)) = [w.getD (w.length - 1) (0, none)] := by
  induction w with
  | nil => cases hne rfl
  | cons p w' ih =>
    cases w' with
    | nil =>
      obtain ⟨qL, hq, hq0⟩ := hl
      simp only [List.length_cons, List.length_nil, Nat.add_sub_cancel,
        List.getD_cons_zero] at hq ⊢
      rw [List.filter_cons]
      simp [hq, hq0]
    | cons p2 w'' =>
      have hp : p.2 = some 0 := by
        have := hmid 0 (by simp)
        simpa using this
      rw [List.filter_cons]
      have hpred : (decide (p.2 ≠ some 0)) = false := by simp [hp]
      rw [hpred]
      simp only [Bool.false_eq_true, if_false]
      have hres := ih (by simp)
        (by
          obtain ⟨qL, hq, hq0⟩ := hl
          refine ⟨qL, ?_, hq0⟩
          have harith : (p :: p2 :: w'').length - 1 = ((p2 :: w'').length - 1) + 1 := by
            simp
          rw [harith, List.getD_cons_succ] at hq
          exact hq)
        (by
          intro i hi
          have := hmid (i + 1) (by simp at hi ⊢; omega)
          rwa [List.getD_cons_succ] at this)
      rw [hres]
      congr 1

/-- Filtering a list whose first and last values are nonzero and whose middle
values are all zero keeps exactly the two endpoints. -/
theorem filterZeros_two_point (z : List (ℤ × Val)) (n : ℕ) (hz : z.length = n) (h2 : 2 ≤ n)
    (q0 qL : ℚ)
    (h0 : (z.getD 0 (0, none)).2 = some q0) (hq0 : q0 ≠ 0)
    (hl : (z.getD (n - 1) (0, none)).2 = some qL) (hqL : qL ≠ 0)
    (hmid : ∀ i : ℕ, 1 ≤ i → i < n - 1 → (z.getD i (0, none)).2 = some 0) :
    z.filter (fun p => decide (p.2 ≠ some 0)) =
      [z.getD 0 (0, none), z.getD (n - 1) (0, none)] := by
  cases z with
  | nil => simp at hz; omega
  | cons p w =>
    have hwlen : w.length = n - 1 := by
      simp at hz
      omega
    have hwne : w ≠ [] := by
      intro h
      rw [h] at hwlen
      simp at hwlen
      omega
    rw [List.getD_cons_zero] at h0
    rw [List.filter_cons]
    have hpred : (decide (p.2 ≠ some 0)) = true := by simp [h0, hq0]
    rw [hpred]
    simp only [if_true]
    have hzl : (p :: w).getD (n - 1) (0, none) = w.getD (w.length - 1) (0, none) := by
      have harith : n - 1 = (w.length - 1) + 1 := by omega
      rw [harith, List.getD_cons_succ]
    have hres := filter_last_only w hwne
      (by
        refine ⟨qL, ?_, hqL⟩
        rw [← hzl]
        exact hl)
      (by
        intro i hi
        have := hmid (i + 1) (by omega) (by omega)
        rwa [List.getD_cons_succ] at this)
    rw [hres, List.getD_cons_zero, hzl]

theorem getD_default_irrel {α : Type} (l : List α) (i : ℕ) (d e : α) (h : i < l.length) :
    l.getD i d = l.getD i e := by
  rw [List.getD_eq_getElem _ _ h, List.getD_eq_getElem _ _ h]

theorem headI_eq_getD {α : Type} [Inhabited α] (l : List α) (d : α) (h : l ≠ []) :
    l.headI = l.getD 0 d := by
  cases l with
  | nil => cases h rfl
  | cons a t => rfl

theorem getLastD_eq_getD {α : Type} (l : List α) (d : α) (h : l ≠ []) :
    l.getLastD d = l.getD (l.length - 1) d := by
  induction l generalizing d with
  | nil => cases h rfl
  | cons a t ih =>
    cases t with
    | nil => rfl
    | cons b t' =>
      have h2 : (b :: t') ≠ [] := by simp
      have e1 : (a :: b :: t').getLastD d = (b :: t').getLastD a := by
        rw [List.getLastD_cons]
      have e3 : (a :: b :: t').getD ((a :: b :: t').length - 1) d =
          (b :: t').getD ((b :: t').length - 1) d := by
        have harith : (a :: b :: t').length - 1 = ((b :: t').length - 1) + 1 := by simp
        rw [harith, List.getD_cons_succ]
      rw [e1, ih a h2, e3]
      exact getD_default_irrel _ _ _ _ (by simp)

theorem getD_zip_in (a : List ℤ) (b : List Val) (i : ℕ) (ha : i < a.length)
    (hb : i < b.length) :
    (a.zip b).getD i (0, none) = (a.getD i 0, b.getD i none) := by
  show (List.zipWith Prod.mk a b).getD i (0, none) = _
  exact getD_zipWith_in Prod.mk a b i (0, none) 0 none ha hb

/-- Evaluating the TWR closed form on a finite-valued series with known
endpoint values. -/
theorem twr_eval (idx : List ℤ) (A : List Val) (n : ℕ) (hi : idx.length = n)
    (hA : A.length = n) (h2 : 2 ≤ n) (a0 aL : ℚ)
    (h0 : A.getD 0 none = some a0) (hL : A.getD (n - 1) none = some aL) :
    time_weighted_return_annualized ⟨idx, toR A⟩ =
      ((aL : ℝ) / (a0 : ℝ)) ^
        ((365 : ℝ) / ((idx.getD (n - 1) 0 - idx.getD 0 0 : ℤ) : ℝ)) - 1 := by
  have hine : idx ≠ [] := by
    intro h
    rw [h] at hi
    simp at hi
    omega
  have hlR : (toR A).length = n := by simp [toR, hA]
  have hAne : toR A ≠ [] := by
    intro h
    rw [h] at hlR
    simp at hlR
    omega
  simp only [time_weighted_return_annualized]
  rw [headI_eq_getD idx 0 hine, getLastD_eq_getD idx 0 hine, hi,
    headI_eq_getD (toR A) 0 hAne, getLastD_eq_getD (toR A) 0 hAne, hlR]
  have e0 : (toR A).getD 0 0 = ((a0 : ℚ) : ℝ) := by
    unfold toR
    rw [getD_map_in _ _ _ _ none (by omega), h0]
    rfl
  have eL : (toR A).getD (n - 1) 0 = ((aL : ℚ) : ℝ) := by
    unfold toR
    rw [getD_map_in _ _ _ _ none (by omega), hL]
    rfl
  rw [e0, eL]

/-- Root characterization for a two-point cashflow: the discounted sum of
`[-a0` at time 0, `aL` at time `D/365]` vanishes at `r > -1` exactly when
`1 + r = (aL / a0) ^ (365 / D)`. -/
theorem xnpv_two_point_root (a0 aL : ℚ) (D : ℤ) (ha0 : 0 < a0) (haL : 0 < aL)
    (hD : 0 < D) (r : ℝ) (hr : -1 < r) :
    (xnpv [((0 : ℚ), some (-a0)), (((D : ℤ) : ℚ) / 365, some aL)] r = 0 ↔
      r = ((aL : ℝ) / (a0 : ℝ)) ^ ((365 : ℝ) / ((D : ℤ) : ℝ)) - 1) := by
  have hxpos : (0 : ℝ) < 1 + r := by linarith
  have ha0R : (0 : ℝ) < (a0 : ℝ) := by exact_mod_cast ha0
  have haLR : (0 : ℝ) < (aL : ℝ) := by exact_mod_cast haL
  have hDR : (0 : ℝ) < ((D : ℤ) : ℝ) := by exact_mod_cast hD
  have hc : (0 : ℝ) < (aL : ℝ) / (a0 : ℝ) := div_pos haLR ha0R
  have ht : (0 : ℝ) < ((D : ℤ) : ℝ) / 365 := by positivity
  have hxt : (0 : ℝ) < (1 + r) ^ (((D : ℤ) : ℝ) / 365) := Real.rpow_pos_of_pos hxpos _
  have hsum : xnpv [((0 : ℚ), some (-a0)), (((D : ℤ) : ℚ) / 365, some aL)] r =
      -(a0 : ℝ) + (aL : ℝ) / (1 + r) ^ (((D : ℤ) : ℝ) / 365) := by
    have hcast : ((((D : ℤ) : ℚ) / 365 : ℚ) : ℝ) = ((D : ℤ) : ℝ) / 365 := by
      push_cast
      ring
    unfold xnpv
    simp only [List.map_cons, List.map_nil, List.sum_cons, List.sum_nil,
      Option.getD_some, Rat.cast_zero, Rat.cast_neg, hcast]
    rw [Real.rpow_zero, div_one]
    ring
  rw [hsum]
  constructor
  · intro heq
    have h1 : (aL : ℝ) / (1 + r) ^ (((D : ℤ) : ℝ) / 365) = (a0 : ℝ) := by linarith
    have h2 : (1 + r) ^ (((D : ℤ) : ℝ) / 365) = (aL : ℝ) / (a0 : ℝ) := by
      rw [div_eq_iff (ne_of_gt hxt)] at h1
      rw [eq_div_iff (ne_of_gt ha0R)]
      linarith [h1]
    have h3 : 1 + r = ((aL : ℝ) / (a0 : ℝ)) ^ ((365 : ℝ) / ((D : ℤ) : ℝ)) := by
      have h4 := congrArg (fun y : ℝ => y ^ ((((D : ℤ) : ℝ) / 365)⁻¹)) h2
      simp only at h4
      rw [← Real.rpow_mul (le_of_lt hxpos), mul_inv_cancel₀ (ne_of_gt ht),
        Real.rpow_one] at h4
      rw [h4, inv_div]
    linarith
  · intro heq
    have h3 : 1 + r = ((aL : ℝ) / (a0 : ℝ)) ^ ((365 : ℝ) / ((D : ℤ) : ℝ)) := by linarith
    have h2 : (1 + r) ^ (((D : ℤ) : ℝ) / 365) = (aL : ℝ) / (a0 : ℝ) := by
      rw [h3, ← Real.rpow_mul (le_of_lt hc),
        show (365 : ℝ) / ((D : ℤ) : ℝ) * (((D : ℤ) : ℝ) / 365) = 1 by
          field_simp]
      exact Real.rpow_one _
    rw [h2]
    field_simp

theorem vret_eq (a b : ℚ) (hb : b ≠ 0) :
    vadd (vdiv (vsub (some a) (some b)) (some b)) (some 1) = some (a / b) := by
  simp only [vsub, vdiv, vadd, if_neg hb]
  congr 1
  field_simp

theorem listMin_pair {α : Type} [LinearOrder α] (a b : α) : listMin [a, b] = some (min a b) :=
  rfl

theorem vclip_zero (v : ℚ) : vclip (-|(0 : ℚ)|) |(0 : ℚ)| (some v) = some 0 := by
  simp only [vclip, abs_zero, neg_zero]
  congr 1
  exact max_eq_left (min_le_left 0 v)

/-- C8: with `max_flows_weight = 0` the synthetic flow amounts are
identically zero over the simulated steps, the simulated AUM grows purely by
NAV returns, the engine is called on the resulting two-point cashflow vector,
and (in exact arithmetic) a rate `r > -1` zeroes the solver's discounted sum
precisely when it equals the time-weighted return of the simulated series. -/
theorem theoretical_mwr_zero_weight_spec (s1 : Stage1) (s2 : Stage2) (nav aum : Series)
    (n : ℕ) (hnav : nav.val.length = n) (haum : aum.val.length = n)
    (hidxa : aum.idx.length = n) (h2 : 2 ≤ n)
    (hnavpos : nav.val.all vposB = true) (haumpos : aum.val.all vposB = true)
    (hdate : aum.idx.getD 0 0 < aum.idx.getD (n - 1) 0) :
    (∀ i : ℕ, 1 ≤ i → i < n → (simState false nav aum 0).1.getD i none = some 0) ∧
    (∀ i : ℕ, 1 ≤ i → i < n →
      (simState false nav aum 0).2.getD i none =
        vmul ((simState false nav aum 0).2.getD (i - 1) none)
          (vadd ((pct_change nav.val).getD i none) (some 1))) ∧
    theoretical_mwr_annualized s1 s2 nav aum 0 =
      _xirr s1 s2 (buildCashflows ⟨aum.idx, (simState false nav aum 0).2⟩
        ⟨aum.idx, (simState false nav aum 0).1⟩) ∧
    (∀ r : ℝ, -1 < r →
      (xnpv (xirrTimes (buildCashflows ⟨aum.idx, (simState false nav aum 0).2⟩
          ⟨aum.idx, (simState false nav aum 0).1⟩)) r = 0 ↔
        r = time_weighted_return_annualized
          ⟨aum.idx, toR (simState false nav aum 0).2⟩)) := by
  have hfa0len : (_estimate_flows nav aum).1.val.length = n := by
    simp [_estimate_flows, length_pct_change, length_shift1, hnav, haum]
  have hsim : simState false nav aum 0 =
      simRun false (clippedWeights nav aum 0) (navReturns nav)
        (_estimate_flows nav aum).1.val aum.val (n - 1) := by
    simp only [simState, haum]
  have hfalen : (simState false nav aum 0).1.length = n := by
    rw [hsim, (simRun_length _ _ _ _ _ _).1, hfa0len]
  have havlen : (simState false nav aum 0).2.length = n := by
    rw [hsim, (simRun_length _ _ _ _ _ _).2, haum]
  have hnavv : ∀ i : ℕ, i < n → ∃ q, nav.val.getD i none = some q ∧ 0 < q := by
    intro i hi
    exact all_vposB_getD nav.val hnavpos i (by rw [hnav]; exact hi)
  have haumv : ∀ i : ℕ, i < n → ∃ q, aum.val.getD i none = some q ∧ 0 < q := by
    intro i hi
    exact all_vposB_getD aum.val haumpos i (by rw [haum]; exact hi)
  have hmapR : ∀ i : ℕ, i < n → (navReturns nav).getD i none =
      vadd ((pct_change nav.val).getD i none) (some 1) := by
    intro i hi
    unfold navReturns
    exact getD_map_in _ _ _ _ none (by rw [length_pct_change, hnav]; exact hi)
  have hnavR : ∀ i : ℕ, 1 ≤ i → i < n →
      ∃ ρ, (navReturns nav).getD i none = some ρ ∧ 0 < ρ := by
    intro i h1 hi
    obtain ⟨c, hc, hcpos⟩ := hnavv i hi
    obtain ⟨p, hp, hppos⟩ := hnavv (i - 1) (by omega)
    have hpct : (pct_change nav.val).getD i none =
        vdiv (vsub (nav.val.getD i none) (nav.val.getD (i - 1) none))
          (nav.val.getD (i - 1) none) := by
      rw [pct_change_getD _ _ (by rw [hnav]; exact hi)]
      have hine : ¬ (i = 0) := by omega
      rw [if_neg hine]
    refine ⟨c / p, ?_, div_pos hcpos hppos⟩
    rw [hmapR i hi, hpct, hc, hp]
    exact vret_eq c p (ne_of_gt hppos)
  have hcw : ∀ i : ℕ, 1 ≤ i → i < n →
      (clippedWeights nav aum 0).getD i none = some 0 := by
    intro i h1 hi
    obtain ⟨ac, hac, hacpos⟩ := haumv i hi
    obtain ⟨ap, hap, happos⟩ := haumv (i - 1) (by omega)
    obtain ⟨c, hc, hcpos⟩ := hnavv i hi
    obtain ⟨p, hp, hppos⟩ := hnavv (i - 1) (by omega)
    have hine : ¬ (i = 0) := by omega
    have hpcta : (pct_change aum.val).getD i none = some ((ac - ap) / ap) := by
      rw [pct_change_getD _ _ (by rw [haum]; exact hi), if_neg hine, hac, hap]
      simp only [vsub, vdiv, if_neg (ne_of_gt happos)]
    have hpctn : (pct_change nav.val).getD i none = some ((c - p) / p) := by
      rw [pct_change_getD _ _ (by rw [hnav]; exact hi), if_neg hine, hc, hp]
      simp only [vsub, vdiv, if_neg (ne_of_gt hppos)]
    have hfw : (_estimate_flows nav aum).2.val.getD i none =
        some ((ac - ap) / ap - (c - p) / p) := by
      show (List.zipWith vsub (pct_change aum.val) (pct_change nav.val)).getD i none = _
      rw [getD_zipWith_in _ _ _ _ _ none none (by rw [length_pct_change, haum]; exact hi)
        (by rw [length_pct_change, hnav]; exact hi), hpcta, hpctn]
      rfl
    have hmap : (clippedWeights nav aum 0).getD i none =
        vclip (-|(0 : ℚ)|) |(0 : ℚ)| ((_estimate_flows nav aum).2.val.getD i none) := by
      unfold clippedWeights
      refine getD_map_in _ _ _ _ none ?_
      simp only [_estimate_flows]
      simp [length_pct_change, hnav, haum]
      omega
    rw [hmap, hfw]
    exact vclip_zero _
  have hstep : ∀ i : ℕ, 1 ≤ i → i < n →
      (simState false nav aum 0).1.getD i none =
        vmul ((clippedWeights nav aum 0).getD i none)
          ((simState false nav aum 0).2.getD (i - 1) none) ∧
      (simState false nav aum 0).2.getD i none =
        vadd (vmul ((simState false nav aum 0).2.getD (i - 1) none)
          ((navReturns nav).getD i none))
          ((simState false nav aum 0).1.getD i none) := by
    intro i h1 hi
    have hs := simRun_spec false (clippedWeights nav aum 0) (navReturns nav)
      (_estimate_flows nav aum).1.val aum.val n hfa0len haum i h1 hi
    rw [hsim]
    exact ⟨hs.1, hs.2⟩
  have hinit : (simState false nav aum 0).2.getD 0 none = aum.val.getD 0 none := by
    rw [hsim]
    exact simRun_init _ _ _ _ _ _
  have hA : ∀ i : ℕ, i < n →
      ∃ q, (simState false nav aum 0).2.getD i none = some q ∧ 0 < q := by
    intro i
    induction i with
    | zero =>
      intro h0
      obtain ⟨a0, ha0, ha0pos⟩ := haumv 0 (by omega)
      exact ⟨a0, by rw [hinit]; exact ha0, ha0pos⟩
    | succ j ihj =>
      intro hj
      obtain ⟨av, hav, havpos⟩ := ihj (by omega)
      obtain ⟨rho, hrho, hrhopos⟩ := hnavR (j + 1) (by omega) hj
      have hst := hstep (j + 1) (by omega) hj
      have hfaj : (simState false nav aum 0).1.getD (j + 1) none = some 0 := by
        rw [hst.1, hcw (j + 1) (by omega) hj, show (j + 1) - 1 = j from rfl, hav]
        show vmul (some 0) (some av) = some 0
        simp [vmul]
      refine ⟨av * rho, ?_, mul_pos havpos hrhopos⟩
      rw [hst.2, hfaj, show (j + 1) - 1 = j from rfl, hav, hrho]
      show vadd (vmul (some av) (some rho)) (some 0) = some (av * rho)
      simp [vmul, vadd]
  have hfa_zero : ∀ i : ℕ, 1 ≤ i → i < n →
      (simState false nav aum 0).1.getD i none = some 0 := by
    intro i h1 hi
    obtain ⟨av, hav, _⟩ := hA (i - 1) (by omega)
    rw [(hstep i h1 hi).1, hcw i h1 hi, hav]
    show vmul (some 0) (some av) = some 0
    simp [vmul]
  refine ⟨hfa_zero, ?_, rfl, ?_⟩
  · intro i h1 hi
    obtain ⟨av, hav, _⟩ := hA (i - 1) (by omega)
    obtain ⟨rho, hrho, _⟩ := hnavR i h1 hi
    rw [(hstep i h1 hi).2, hfa_zero i h1 hi, hav, ← hmapR i hi, hrho]
    show vadd (vmul (some av) (some rho)) (some 0) = vmul (some av) (some rho)
    simp [vmul, vadd]
  · intro r hr
    obtain ⟨a0, ha0, ha0pos⟩ := hA 0 (by omega)
    obtain ⟨aL, haL, haLpos⟩ := hA (n - 1) (by omega)
    have hbc := fun i hi => buildCashflows_getD ⟨aum.idx, (simState false nav aum 0).2⟩
      ⟨aum.idx, (simState false nav aum 0).1⟩ n havlen hfalen h2 i hi
    have hcfslen : (buildCashflows ⟨aum.idx, (simState false nav aum 0).2⟩
        ⟨aum.idx, (simState false nav aum 0).1⟩).val.length = n := by
      rw [length_buildCashflows]
      exact hfalen
    have hv0 : (buildCashflows ⟨aum.idx, (simState false nav aum 0).2⟩
        ⟨aum.idx, (simState false nav aum 0).1⟩).val.getD 0 none = some (-a0) := by
      have hb0 := hbc 0 (by omega)
      rw [if_pos rfl] at hb0
      rw [hb0]
      show vneg ((simState false nav aum 0).2.getD 0 none) = some (-a0)
      rw [ha0]
      rfl
    have hvL : (buildCashflows ⟨aum.idx, (simState false nav aum 0).2⟩
        ⟨aum.idx, (simState false nav aum 0).1⟩).val.getD (n - 1) none = some aL := by
      have hne : ¬ (n - 1 = 0) := by omega
      have hbL := hbc (n - 1) (by omega)
      rw [if_neg hne, if_pos rfl] at hbL
      rw [hbL]
      show vadd (vneg ((simState false nav aum 0).1.getD (n - 1) none))
        ((simState false nav aum 0).2.getD (n - 1) none) = some aL
      rw [hfa_zero (n - 1) (by omega) (by omega), haL]
      show vadd (vneg (some 0)) (some aL) = some aL
      simp [vneg, vadd]
    have hvmid : ∀ i : ℕ, 1 ≤ i → i < n - 1 →
        (buildCashflows ⟨aum.idx, (simState false nav aum 0).2⟩
          ⟨aum.idx, (simState false nav aum 0).1⟩).val.getD i none = some 0 := by
      intro i h1 hi
      have hne0 : ¬ (i = 0) := by omega
      have hnel : ¬ (i = n - 1) := by omega
      have hbi := hbc i (by omega)
      rw [if_neg hne0, if_neg hnel] at hbi
      rw [hbi]
      show vneg ((simState false nav aum 0).1.getD i none) = some 0
      rw [hfa_zero i h1 (by omega)]
      simp [vneg]
    have hziplen : (aum.idx.zip (buildCashflows ⟨aum.idx, (simState false nav aum 0).2⟩
        ⟨aum.idx, (simState false nav aum 0).1⟩).val).length = n := by
      rw [List.length_zip, hidxa, hcfslen]
      simp
    have hzget : ∀ i : ℕ, i < n →
        (aum.idx.zip (buildCashflows ⟨aum.idx, (simState false nav aum 0).2⟩
          ⟨aum.idx, (simState false nav aum 0).1⟩).val).getD i (0, none) =
        (aum.idx.getD i 0, (buildCashflows ⟨aum.idx, (simState false nav aum 0).2⟩
          ⟨aum.idx, (simState false nav aum 0).1⟩).val.getD i none) := by
      intro i hi
      exact getD_zip_in _ _ i (by rw [hidxa]; exact hi) (by rw [hcfslen]; exact hi)
    have hfilter : filterZeros (buildCashflows ⟨aum.idx, (simState false nav aum 0).2⟩
        ⟨aum.idx, (simState false nav aum 0).1⟩) =
        [(aum.idx.getD 0 0, some (-a0)), (aum.idx.getD (n - 1) 0, some aL)] := by
      have h2p := filterZeros_two_point
        (aum.idx.zip (buildCashflows ⟨aum.idx, (simState false nav aum 0).2⟩
          ⟨aum.idx, (simState false nav aum 0).1⟩).val) n hziplen h2 (-a0) aL
        (by rw [hzget 0 (by omega)]; exact hv0)
        (by simpa using ne_of_gt ha0pos)
        (by rw [hzget (n - 1) (by omega)]; exact hvL)
        (ne_of_gt haLpos)
        (by
          intro i h1 hi
          rw [hzget i (by omega)]
          exact hvmid i h1 hi)
      show (aum.idx.zip (buildCashflows ⟨aum.idx, (simState false nav aum 0).2⟩
        ⟨aum.idx, (simState false nav aum 0).1⟩).val).filter
          (fun p => decide (p.2 ≠ some 0)) = _
      rw [h2p, hzget 0 (by omega), hzget (n - 1) (by omega), hv0, hvL]
    have hmin : listMin ([(aum.idx.getD 0 0, some (-a0)),
        (aum.idx.getD (n - 1) 0, some aL)].map Prod.fst) = some (aum.idx.getD 0 0) := by
      show listMin [aum.idx.getD 0 0, aum.idx.getD (n - 1) 0] = _
      rw [listMin_pair, min_eq_left (le_of_lt hdate)]
    have hxt : xirrTimes (buildCashflows ⟨aum.idx, (simState false nav aum 0).2⟩
        ⟨aum.idx, (simState false nav aum 0).1⟩) =
        [((0 : ℚ), some (-a0)),
          (((aum.idx.getD (n - 1) 0 - aum.idx.getD 0 0 : ℤ) : ℚ) / 365, some aL)] := by
      unfold xirrTimes
      rw [hfilter]
      unfold reindexYears
      rw [hmin]
      simp
    rw [hxt, twr_eval aum.idx (simState false nav aum 0).2 n hidxa havlen h2 a0 aL ha0 haL]
    have hD : (0 : ℤ) < aum.idx.getD (n - 1) 0 - aum.idx.getD 0 0 := by omega
    have hroot := xnpv_two_point_root a0 aL (aum.idx.getD (n - 1) 0 - aum.idx.getD 0 0)
      ha0pos haLpos hD r hr
    exact hroot

/-- Witness for C8: with `max_flows_weight = 0` on NAV `[100, 121]` and AUM
`[1000, 1210]`, the synthetic flow at step 1 is zero and the simulated AUM
grows purely by the NAV return: `1000 * 1.21 = 1210`. -/
theorem theoretical_mwr_zero_weight_spec_witness :
    (simState false navT aumT 0).1.getD 1 none = some 0 ∧
    (simState false navT aumT 0).2.getD 1 none = some 1210 := by
  have h := theoretical_mwr_zero_weight_spec (stOk (NumResult.real 0)) (stErr SolveErr.other)
    navT aumT 2 rfl rfl rfl (by norm_num) (by rfl) (by rfl) (by decide)
  have hf := h.1 1 (by norm_num) (by norm_num)
  have ha := h.2.1 1 (by norm_num) (by norm_num)
  refine ⟨hf, ?_⟩
  rw [ha]
  have h0 : (simState false navT aumT 0).2.getD 0 none = some 1000 := rfl
  rw [show (1 : ℕ) - 1 = 0 from rfl, h0,
    pct_change_getD navT.val 1 (by norm_num [navT])]
  norm_num [navT, vdiv, vsub, vadd, vmul, List.getD_cons_zero, List.getD_cons_succ]
